import Mathlib

/-!
Verification development for the llm-stock-trader-trainer repository.

The repository ships the frontend of the trainer (React components and the
axios API client); the backend simulation engine (playback sessions, trading
accounts, news date correlator, indicator calculator) is reached only through
HTTP calls.  Definitions whose doc comment starts with `Modelled from the
spec:` therefore follow the specification text for the missing engine; all
other definitions are translated from the frontend sources
(`CandlestickChart`, `PerformanceAnalysis`, `SimpleTradingViewChart`, the API
client).  Prices and cash amounts are modelled as rationals, timestamps as
naturals.
-/

namespace StockTraderTrainer

/-! ### Candles and playback sessions -/

/-- A raw OHLCV candle (`open` is a Lean keyword, hence `opn`). -/
structure Candle where
  timestamp : Nat
  opn : ℚ
  high : ℚ
  low : ℚ
  close : ℚ
  volume : ℚ
deriving DecidableEq

/-- Minimum of a list of rationals (0 for the empty list, which the engine
rejects at session start with `InvalidRangeError`). -/
def minList : List ℚ → ℚ
  | [] => 0
  | x :: xs => xs.foldl min x

/-- Maximum of a list of rationals (0 for the empty list). -/
def maxList : List ℚ → ℚ
  | [] => 0
  | x :: xs => xs.foldl max x

/-- Modelled from the spec: the fixed value range {min_price, max_price} of a
session, computed over the *entire* candle sequence (minimum of the lows,
maximum of the highs). -/
def priceRangeOf (cs : List Candle) : ℚ × ℚ :=
  (minList (cs.map Candle.low), maxList (cs.map Candle.high))

/-- Modelled from the spec: a Playback Session owns one immutable candle
sequence, a cursor, and the value range fixed at creation.  The backend
session store is not in the shipped sources. -/
structure PlaybackSession where
  candles : List Candle
  cursor : Nat
  value_range : ℚ × ℚ
deriving DecidableEq

/-- Modelled from the spec: `start` computes the fixed value range over the
whole sequence and sets cursor = 0. -/
def startSession (cs : List Candle) : PlaybackSession :=
  { candles := cs, cursor := 0, value_range := priceRangeOf cs }

def PlaybackSession.totalCount (s : PlaybackSession) : Nat :=
  s.candles.length

/-- Modelled from the spec: `advance` moves the cursor forward by `count`,
clamped so it never exceeds total_count − 1. -/
def advance (s : PlaybackSession) (count : Nat) : PlaybackSession :=
  { s with cursor := min (s.cursor + count) (s.totalCount - 1) }

/-- Modelled from the spec: `has_more` is false once the cursor sits on the
last candle. -/
def hasMore (s : PlaybackSession) : Bool :=
  decide (s.cursor < s.totalCount - 1)

/-- Playback error taxonomy (spec §7). -/
inductive PlaybackError
  | outOfRange
  | notFound
  | invalidRange
deriving DecidableEq

/-- Modelled from the spec: `seek` sets the cursor to `index` directly and
fails with `OutOfRangeError` if index < 0 or index ≥ total_count, leaving the
session untouched on failure. -/
def seek (s : PlaybackSession) (index : ℤ) : Option PlaybackError × PlaybackSession :=
  if index < 0 ∨ (s.totalCount : ℤ) ≤ index then
    (some PlaybackError.outOfRange, s)
  else
    (none, { s with cursor := index.toNat })

/-- A playback operation issued against a live session (the only mutators
after creation). -/
inductive PlaybackOp
  | adv (count : Nat)
  | sk (index : ℤ)

def applyOp (s : PlaybackSession) : PlaybackOp → PlaybackSession
  | PlaybackOp.adv n => advance s n
  | PlaybackOp.sk i => (seek s i).2

def applyOps (ops : List PlaybackOp) (s : PlaybackSession) : PlaybackSession :=
  ops.foldl applyOp s

/-- From `CandlestickChart` (lines 126–149): the rendered chart uses the
backend-provided price range when present and only falls back to the visible
data otherwise. -/
def chartPriceRange (priceRange : Option (ℚ × ℚ)) (data : List Candle) : ℚ × ℚ :=
  match priceRange with
  | some pr => pr
  | none => (minList (data.map Candle.low), maxList (data.map Candle.high))

/-! ### Trading accounts -/

inductive TradeType
  | buy
  | sell
deriving DecidableEq

/-- A trade log entry (immutable once appended). -/
structure Trade where
  id : Nat
  timestamp : Nat
  type : TradeType
  shares : Nat
  price : ℚ
  total : ℚ
  cash_after : ℚ
deriving DecidableEq

/-- A held position; `current_price` is the last-known price used by the
status fallback. -/
structure Position where
  shares : Nat
  entry_price : ℚ
  entry_time : Nat
  current_price : ℚ
deriving DecidableEq

/-- Modelled from the spec: a Trading Account (cash, optional position,
realized P&L accumulator, append-only trade log). -/
structure Account where
  initial_cash : ℚ
  current_cash : ℚ
  position : Option Position
  realized_pl : ℚ
  trades : List Trade
deriving DecidableEq

inductive TradeError
  | insufficientFunds
  | insufficientPosition
deriving DecidableEq

/-- Modelled from the spec: account creation with `current_cash =
initial_cash`, no position, empty trade log, realized_pl = 0. -/
def startAccount (initial : ℚ) : Account :=
  { initial_cash := initial, current_cash := initial, position := none,
    realized_pl := 0, trades := [] }

/-- Modelled from the spec: `buy(account_id, current_price)` for one lot of
`L` shares.  Requires current_cash ≥ current_price × L, else fails with
`InsufficientFundsError` and changes nothing; otherwise opens or pyramids the
position (cost-weighted average entry), deducts the cost, and appends a buy
trade atomically. -/
def buy (L : Nat) (a : Account) (price : ℚ) (now : Nat) : Option TradeError × Account :=
  let cost := price * (L : ℚ)
  if a.current_cash < cost then
    (some TradeError.insufficientFunds, a)
  else
    let pos :=
      match a.position with
      | none => Position.mk L price now price
      | some p =>
          Position.mk (p.shares + L)
            ((p.entry_price * (p.shares : ℚ) + price * (L : ℚ)) / ((p.shares : ℚ) + (L : ℚ)))
            p.entry_time price
    let cash := a.current_cash - cost
    (none,
      { a with
          current_cash := cash
          position := some pos
          trades := a.trades ++ [Trade.mk a.trades.length now TradeType.buy L price cost cash] })

/-- Modelled from the spec: `sell(account_id, current_price)` for one lot of
`L` shares.  Requires a held position with shares ≥ L, else fails with
`InsufficientPositionError` and changes nothing; otherwise reduces the
position, realizes (price − entry_price) × L, credits the proceeds, clears
the position at zero shares, and appends a sell trade atomically. -/
def sell (L : Nat) (a : Account) (price : ℚ) (now : Nat) : Option TradeError × Account :=
  match a.position with
  | none => (some TradeError.insufficientPosition, a)
  | some p =>
      if p.shares < L then
        (some TradeError.insufficientPosition, a)
      else
        let proceeds := price * (L : ℚ)
        let pl := (price - p.entry_price) * (L : ℚ)
        let remaining := p.shares - L
        let cash := a.current_cash + proceeds
        (none,
          { a with
              current_cash := cash
              realized_pl := a.realized_pl + pl
              position :=
                if remaining = 0 then none
                else some { p with shares := remaining, current_price := price }
              trades := a.trades ++
                [Trade.mk a.trades.length now TradeType.sell L price proceeds cash] })

/-- From `PerformanceAnalysis.calculateStats` (lines 49–57): the per-sell
profit/loss list, using the last buy trade's price (0 when there is none). -/
def sellPLs (trades : List Trade) : List ℚ :=
  let buyTrades := trades.filter (fun t => t.type == TradeType.buy)
  let sellTrades := trades.filter (fun t => t.type == TradeType.sell)
  sellTrades.map (fun st =>
    let buyPrice :=
      match buyTrades.getLast? with
      | some bt => bt.price
      | none => 0
    (st.price - buyPrice) * (st.shares : ℚ))

/-! ### Concrete sessions used by the witnesses -/

/-- The three-candle demo series of the spec scenario (closes 10, 12, 9). -/
def demoCandles : List Candle :=
  [Candle.mk 0 10 11 9 10 100, Candle.mk 1 10 13 10 12 100, Candle.mk 2 12 12 8 9 100]

def demoSession : PlaybackSession := startSession demoCandles

/-- The demo session with the cursor already on the last candle. -/
def demoEndSession : PlaybackSession :=
  { candles := demoCandles, cursor := 2, value_range := priceRangeOf demoCandles }

/-! ### Playback lemmas -/

theorem applyOp_preserves (s : PlaybackSession) (op : PlaybackOp) :
    (applyOp s op).candles = s.candles ∧ (applyOp s op).value_range = s.value_range := by
  cases op with
  | adv n => exact ⟨rfl, rfl⟩
  | sk i =>
      simp only [applyOp, seek]
      split <;> exact ⟨rfl, rfl⟩

theorem applyOps_preserves (ops : List PlaybackOp) (s : PlaybackSession) :
    (applyOps ops s).candles = s.candles ∧ (applyOps ops s).value_range = s.value_range := by
  induction ops generalizing s with
  | nil => exact ⟨rfl, rfl⟩
  | cons op rest ih =>
      have h1 := applyOp_preserves s op
      have h2 := ih (applyOp s op)
      simp only [applyOps, List.foldl_cons] at h2 ⊢
      exact ⟨h2.1.trans h1.1, h2.2.trans h1.2⟩

/-- Claim C1: the value range {min_price, max_price} of a playback session is
computed once over the entire candle sequence at creation and is unchanged by
every sequence of advance and seek operations (the candle sequence itself is
also never mutated); the rendered chart uses exactly the provided range. -/
theorem value_range_fixed_under_playback (cs : List Candle) (ops : List PlaybackOp)
    (s : PlaybackSession) :
    (startSession cs).value_range = priceRangeOf cs ∧
    (applyOps ops s).value_range = s.value_range ∧
    (applyOps ops s).candles = s.candles ∧
    (applyOps ops (startSession cs)).value_range = priceRangeOf cs ∧
    (∀ (pr : ℚ × ℚ) (data : List Candle), chartPriceRange (some pr) data = pr) := by
  refine ⟨rfl, (applyOps_preserves ops s).2, (applyOps_preserves ops s).1, ?_, fun pr data => rfl⟩
  exact (applyOps_preserves ops (startSession cs)).2

/-- Claim C5: `advance` clamps the cursor at total_count − 1, `has_more` is
false exactly when the new cursor sits on the last candle, and advancing while
already at the end is a no-op that reports has_more = false. -/
theorem advance_clamped_has_more (s : PlaybackSession) (count : Nat) :
    (advance s count).cursor ≤ s.totalCount - 1 ∧
    (hasMore (advance s count) = false ↔ (advance s count).cursor = s.totalCount - 1) ∧
    (s.cursor = s.totalCount - 1 →
      advance s count = s ∧ hasMore (advance s count) = false) := by
  have hcand : (advance s count).candles = s.candles := rfl
  have htot : (advance s count).totalCount = s.totalCount := by
    simp [PlaybackSession.totalCount, hcand]
  have hcur : (advance s count).cursor = min (s.cursor + count) (s.totalCount - 1) := rfl
  refine ⟨?_, ?_, ?_⟩
  · rw [hcur]; exact min_le_right _ _
  · rw [hasMore, htot, hcur]
    constructor
    · intro h
      have := of_decide_eq_false h
      omega
    · intro h
      rw [decide_eq_false_iff_not]
      omega
  · intro hend
    have heq : advance s count = s := by
      cases s with
      | mk candles cursor value_range =>
          simp only [advance, PlaybackSession.totalCount] at hend ⊢
          simp only [PlaybackSession.mk.injEq, and_true, true_and]
          omega
    refine ⟨heq, ?_⟩
    rw [heq, hasMore, decide_eq_false_iff_not]
    omega

theorem advance_clamped_has_more_witness :
    advance demoEndSession 3 = demoEndSession ∧ hasMore (advance demoEndSession 3) = false :=
  (advance_clamped_has_more demoEndSession 3).2.2 (by decide)

/-- Claim C6: `seek` fails with `OutOfRangeError` exactly when the index is
negative or at least total_count; on failure the session is unchanged, and
otherwise it succeeds and places the cursor at the index. -/
theorem seek_out_of_range (s : PlaybackSession) (i : ℤ) :
    ((seek s i).1 = some PlaybackError.outOfRange ↔ (i < 0 ∨ (s.totalCount : ℤ) ≤ i)) ∧
    ((i < 0 ∨ (s.totalCount : ℤ) ≤ i) → (seek s i).2 = s) ∧
    (¬ (i < 0 ∨ (s.totalCount : ℤ) ≤ i) →
      (seek s i).1 = none ∧ (seek s i).2.cursor = i.toNat) := by
  by_cases h : i < 0 ∨ (s.totalCount : ℤ) ≤ i
  · refine ⟨?_, fun _ => ?_, fun hc => absurd h hc⟩
    · simp [seek, h]
    · simp [seek, h]
  · refine ⟨?_, fun hc => absurd hc h, fun _ => ?_⟩
    · simp [seek, h]
    · simp [seek, h]

theorem seek_out_of_range_witness :
    (seek demoSession 5).1 = some PlaybackError.outOfRange ∧
    (seek demoSession 5).2 = demoSession :=
  ⟨(seek_out_of_range demoSession 5).1.mpr (by decide),
   (seek_out_of_range demoSession 5).2.1 (by decide)⟩

/-! ### Trading account theorems -/

/-- A successful buy, written out: the cost is deducted, the position opened
or pyramided, and the buy trade appended. -/
theorem buy_ok (L : Nat) (a : Account) (p : ℚ) (now : Nat)
    (h : p * (L : ℚ) ≤ a.current_cash) :
    buy L a p now =
      (none,
        { a with
            current_cash := a.current_cash - p * (L : ℚ)
            position := some (match a.position with
              | none => Position.mk L p now p
              | some q =>
                  Position.mk (q.shares + L)
                    ((q.entry_price * (q.shares : ℚ) + p * (L : ℚ)) /
                      ((q.shares : ℚ) + (L : ℚ)))
                    q.entry_time p)
            trades := a.trades ++ [Trade.mk a.trades.length now TradeType.buy L p
              (p * (L : ℚ)) (a.current_cash - p * (L : ℚ))] }) := by
  have hno : ¬ (a.current_cash < p * (L : ℚ)) := not_lt.mpr h
  simp [buy, hno]

/-- A successful sell, written out: the proceeds are credited, the profit and
loss realized, the position shrunk (cleared at zero shares), and the sell
trade appended. -/
theorem sell_ok (L : Nat) (a : Account) (p : ℚ) (now : Nat) (q : Position)
    (hpos : a.position = some q) (hq : L ≤ q.shares) :
    sell L a p now =
      (none,
        { a with
            current_cash := a.current_cash + p * (L : ℚ)
            realized_pl := a.realized_pl + (p - q.entry_price) * (L : ℚ)
            position :=
              if q.shares - L = 0 then none
              else some { q with shares := q.shares - L, current_price := p }
            trades := a.trades ++ [Trade.mk a.trades.length now TradeType.sell L p
              (p * (L : ℚ)) (a.current_cash + p * (L : ℚ))] }) := by
  have hno : ¬ (q.shares < L) := not_lt.mpr hq
  simp [sell, hpos, hno]

/-- Claim C2: `buy` succeeds exactly when current_cash ≥ price × L, fails with
`InsufficientFundsError` leaving the account (cash, position, trade log,
realized P&L) unchanged whenever current_cash < price × L, and neither a buy
nor a sell can drive current_cash below zero. -/
theorem buy_requires_funds (L : Nat) (a : Account) (p : ℚ) (now : Nat) :
    ((buy L a p now).1 = none ↔ p * (L : ℚ) ≤ a.current_cash) ∧
    (a.current_cash < p * (L : ℚ) →
      buy L a p now = (some TradeError.insufficientFunds, a)) ∧
    (0 ≤ a.current_cash → 0 ≤ p →
      0 ≤ (buy L a p now).2.current_cash ∧ 0 ≤ (sell L a p now).2.current_cash) := by
  refine ⟨?_, ?_, ?_⟩
  · constructor
    · intro hnone
      by_cases h : a.current_cash < p * (L : ℚ)
      · simp [buy, h] at hnone
      · exact not_lt.mp h
    · intro hle
      rw [buy_ok L a p now hle]
  · intro h
    simp [buy, h]
  · intro hc hp
    constructor
    · by_cases h : a.current_cash < p * (L : ℚ)
      · simpa [buy, h] using hc
      · rw [buy_ok L a p now (not_lt.mp h)]
        have := not_lt.mp h
        simp only []
        linarith
    · have hpL : 0 ≤ p * (L : ℚ) := mul_nonneg hp (by positivity)
      cases hpos : a.position with
      | none => simpa [sell, hpos] using hc
      | some q =>
          by_cases hs : q.shares < L
          · simpa [sell, hpos, hs] using hc
          · rw [sell_ok L a p now q hpos (not_lt.mp hs)]
            simp only []
            linarith

theorem buy_requires_funds_witness :
    buy 1000 (startAccount 100) 5 0 = (some TradeError.insufficientFunds, startAccount 100) ∧
    (0 ≤ (buy 1000 (startAccount 10000000) 5 0).2.current_cash ∧
      0 ≤ (sell 1000 (startAccount 10000000) 5 0).2.current_cash) :=
  ⟨(buy_requires_funds 1000 (startAccount 100) 5 0).2.1 (by norm_num [startAccount]),
   (buy_requires_funds 1000 (startAccount 10000000) 5 0).2.2
     (by norm_num [startAccount]) (by norm_num)⟩

/-- Claim C3: starting Flat with sufficient cash, `buy(p1)` then `sell(p2)` on
the same lot both succeed, realize (p2 − p1) × L, restore the Flat state, and
leave current_cash = initial_cash + (p2 − p1) × L; the frontend per-sell P&L
recomputation (`calculateStats`) reports the same single-lot profit. -/
theorem round_trip_realized_pl (L : Nat) (c0 p1 p2 : ℚ) (t1 t2 : Nat)
    (hfunds : p1 * (L : ℚ) ≤ c0) :
    (buy L (startAccount c0) p1 t1).1 = none ∧
    (sell L (buy L (startAccount c0) p1 t1).2 p2 t2).1 = none ∧
    (sell L (buy L (startAccount c0) p1 t1).2 p2 t2).2.realized_pl = (p2 - p1) * (L : ℚ) ∧
    (sell L (buy L (startAccount c0) p1 t1).2 p2 t2).2.position = none ∧
    (sell L (buy L (startAccount c0) p1 t1).2 p2 t2).2.current_cash
      = c0 + (p2 - p1) * (L : ℚ) ∧
    sellPLs (sell L (buy L (startAccount c0) p1 t1).2 p2 t2).2.trades
      = [(p2 - p1) * (L : ℚ)] := by
  have hb : buy L (startAccount c0) p1 t1 =
      (none, Account.mk c0 (c0 - p1 * (L : ℚ)) (some (Position.mk L p1 t1 p1)) 0
        [Trade.mk 0 t1 TradeType.buy L p1 (p1 * (L : ℚ)) (c0 - p1 * (L : ℚ))]) := by
    rw [buy_ok L (startAccount c0) p1 t1 (by simpa [startAccount] using hfunds)]
    simp [startAccount]
  have hs : sell L (Account.mk c0 (c0 - p1 * (L : ℚ)) (some (Position.mk L p1 t1 p1)) 0
        [Trade.mk 0 t1 TradeType.buy L p1 (p1 * (L : ℚ)) (c0 - p1 * (L : ℚ))]) p2 t2 =
      (none, Account.mk c0 (c0 - p1 * (L : ℚ) + p2 * (L : ℚ)) none ((p2 - p1) * (L : ℚ))
        [Trade.mk 0 t1 TradeType.buy L p1 (p1 * (L : ℚ)) (c0 - p1 * (L : ℚ)),
         Trade.mk 1 t2 TradeType.sell L p2 (p2 * (L : ℚ))
           (c0 - p1 * (L : ℚ) + p2 * (L : ℚ))]) := by
    rw [sell_ok L _ p2 t2 (Position.mk L p1 t1 p1) rfl (le_refl L)]
    simp
  rw [hb]
  simp only [hs]
  have e1 : (TradeType.buy == TradeType.sell) = false := rfl
  have e2 : (TradeType.sell == TradeType.sell) = true := rfl
  have e3 : (TradeType.buy == TradeType.buy) = true := rfl
  have e4 : (TradeType.sell == TradeType.buy) = false := rfl
  refine ⟨by trivial, by trivial, by trivial, by trivial, by ring, ?_⟩
  simp [sellPLs, e1, e2, e3, e4]

theorem round_trip_realized_pl_witness :
    (sell 1000 (buy 1000 (startAccount 10000000) 10 0).2 9 2).2.realized_pl
      = (9 - 10) * ((1000 : Nat) : ℚ) ∧
    (sell 1000 (buy 1000 (startAccount 10000000) 10 0).2 9 2).2.position = none ∧
    (sell 1000 (buy 1000 (startAccount 10000000) 10 0).2 9 2).2.current_cash
      = 10000000 + (9 - 10) * ((1000 : Nat) : ℚ) :=
  ⟨(round_trip_realized_pl 1000 10000000 10 9 0 2 (by norm_num)).2.2.1,
   (round_trip_realized_pl 1000 10000000 10 9 0 2 (by norm_num)).2.2.2.1,
   (round_trip_realized_pl 1000 10000000 10 9 0 2 (by norm_num)).2.2.2.2.1⟩

/-- Claim C4: a buy while already Holding adds L shares and recomputes the
entry price as the cost-weighted average; two one-lot buys at p1 and p2 from
Flat yield entry_price = (p1 + p2) / 2 and 2·L shares, and a subsequent sell
realizes (p3 − (p1 + p2) / 2) × L against that averaged entry. -/
theorem pyramiding_average_entry (L : Nat) (c0 p1 p2 p3 : ℚ) (t1 t2 t3 : Nat)
    (hL : 0 < L) (h1 : p1 * (L : ℚ) ≤ c0) (h2 : p2 * (L : ℚ) ≤ c0 - p1 * (L : ℚ)) :
    (∀ (a : Account) (q : Position) (p : ℚ) (t : Nat),
        a.position = some q → p * (L : ℚ) ≤ a.current_cash →
        (buy L a p t).2.position =
          some (Position.mk (q.shares + L)
            ((q.entry_price * (q.shares : ℚ) + p * (L : ℚ)) / ((q.shares : ℚ) + (L : ℚ)))
            q.entry_time p)) ∧
    (buy L (buy L (startAccount c0) p1 t1).2 p2 t2).2.position =
      some (Position.mk (2 * L) ((p1 + p2) / 2) t1 p2) ∧
    (sell L (buy L (buy L (startAccount c0) p1 t1).2 p2 t2).2 p3 t3).2.realized_pl =
      (p3 - (p1 + p2) / 2) * (L : ℚ) := by
  have hL0 : ((L : ℚ)) ≠ 0 := Nat.cast_ne_zero.mpr hL.ne'
  have hLpos : (0 : ℚ) < (L : ℚ) := by positivity
  have hentry : (p1 * (L : ℚ) + p2 * (L : ℚ)) / ((L : ℚ) + (L : ℚ)) = (p1 + p2) / 2 := by
    rw [div_eq_div_iff (by positivity) (by norm_num)]
    ring
  have hb1 : buy L (startAccount c0) p1 t1 =
      (none, Account.mk c0 (c0 - p1 * (L : ℚ)) (some (Position.mk L p1 t1 p1)) 0
        [Trade.mk 0 t1 TradeType.buy L p1 (p1 * (L : ℚ)) (c0 - p1 * (L : ℚ))]) := by
    rw [buy_ok L (startAccount c0) p1 t1 (by simpa [startAccount] using h1)]
    simp [startAccount]
  have hb2 : buy L (Account.mk c0 (c0 - p1 * (L : ℚ)) (some (Position.mk L p1 t1 p1)) 0
        [Trade.mk 0 t1 TradeType.buy L p1 (p1 * (L : ℚ)) (c0 - p1 * (L : ℚ))]) p2 t2 =
      (none, Account.mk c0 (c0 - p1 * (L : ℚ) - p2 * (L : ℚ))
        (some (Position.mk (L + L) ((p1 * (L : ℚ) + p2 * (L : ℚ)) / ((L : ℚ) + (L : ℚ)))
          t1 p2)) 0
        [Trade.mk 0 t1 TradeType.buy L p1 (p1 * (L : ℚ)) (c0 - p1 * (L : ℚ)),
         Trade.mk 1 t2 TradeType.buy L p2 (p2 * (L : ℚ))
           (c0 - p1 * (L : ℚ) - p2 * (L : ℚ))]) := by
    rw [buy_ok L _ p2 t2 (by simpa using h2)]
    simp
  have h2L : ¬ (L + L - L = 0) := by omega
  have h2L' : L + L - L = L := by omega
  have hs3 : sell L (Account.mk c0 (c0 - p1 * (L : ℚ) - p2 * (L : ℚ))
        (some (Position.mk (L + L) ((p1 * (L : ℚ) + p2 * (L : ℚ)) / ((L : ℚ) + (L : ℚ)))
          t1 p2)) 0
        [Trade.mk 0 t1 TradeType.buy L p1 (p1 * (L : ℚ)) (c0 - p1 * (L : ℚ)),
         Trade.mk 1 t2 TradeType.buy L p2 (p2 * (L : ℚ))
           (c0 - p1 * (L : ℚ) - p2 * (L : ℚ))]) p3 t3 =
      (none, Account.mk c0 (c0 - p1 * (L : ℚ) - p2 * (L : ℚ) + p3 * (L : ℚ))
        (some (Position.mk L ((p1 * (L : ℚ) + p2 * (L : ℚ)) / ((L : ℚ) + (L : ℚ))) t1 p3))
        ((p3 - (p1 * (L : ℚ) + p2 * (L : ℚ)) / ((L : ℚ) + (L : ℚ))) * (L : ℚ))
        [Trade.mk 0 t1 TradeType.buy L p1 (p1 * (L : ℚ)) (c0 - p1 * (L : ℚ)),
         Trade.mk 1 t2 TradeType.buy L p2 (p2 * (L : ℚ))
           (c0 - p1 * (L : ℚ) - p2 * (L : ℚ)),
         Trade.mk 2 t3 TradeType.sell L p3 (p3 * (L : ℚ))
           (c0 - p1 * (L : ℚ) - p2 * (L : ℚ) + p3 * (L : ℚ))]) := by
    rw [sell_ok L _ p3 t3
      (Position.mk (L + L) ((p1 * (L : ℚ) + p2 * (L : ℚ)) / ((L : ℚ) + (L : ℚ))) t1 p2)
      rfl (by show L ≤ L + L; omega)]
    simp [h2L, h2L', hL.ne']
  refine ⟨?_, ?_, ?_⟩
  · intro a q p t hpos hfunds
    rw [buy_ok L a p t hfunds, hpos]
  · rw [hb1]
    simp only [hb2]
    simp [Position.mk.injEq, two_mul, hentry]
  · rw [hb1]
    simp only [hb2, hs3]
    rw [hentry]

theorem pyramiding_average_entry_witness :
    (buy 1000 (buy 1000 (startAccount 100000000) 10 0).2 20 1).2.position =
      some (Position.mk (2 * 1000) ((10 + 20) / 2) 0 20) ∧
    (sell 1000 (buy 1000 (buy 1000 (startAccount 100000000) 10 0).2 20 1).2 18 2).2.realized_pl =
      (18 - (10 + 20) / 2) * ((1000 : Nat) : ℚ) :=
  (pyramiding_average_entry 1000 100000000 10 20 18 0 1 2 (by norm_num)
    (by norm_num) (by norm_num)).2

/-! ### News date correlator -/

/-- Modelled from the spec: resolve one raw news date to the earliest trading
date that is ≥ the raw date (dates are modelled as day numbers; the trading
date list is sorted). -/
def resolveDate (tradingDates : List Nat) (raw : Nat) : Option Nat :=
  tradingDates.find? (fun d => decide (raw ≤ d))

/-- Modelled from the spec: `resolveTradingDates(newsDates, tradingDates)`
resolves every raw news date and deduplicates the resulting set of trading
dates (raw dates past the last trading date resolve to nothing). -/
def resolveTradingDates (newsDates tradingDates : List Nat) : List Nat :=
  (newsDates.filterMap (resolveDate tradingDates)).dedup

theorem resolveDate_spec {l : List Nat} (hl : List.Sorted (· ≤ ·) l) {r d : Nat}
    (h : resolveDate l r = some d) :
    d ∈ l ∧ r ≤ d ∧ ∀ e ∈ l, r ≤ e → d ≤ e := by
  induction l with
  | nil => simp [resolveDate] at h
  | cons a t ih =>
      by_cases hra : r ≤ a
      · rw [resolveDate, List.find?_cons_of_pos _ (by simpa using hra)] at h
        obtain rfl : a = d := by simpa using h
        refine ⟨List.mem_cons_self a t, hra, ?_⟩
        intro e he _
        rcases List.mem_cons.mp he with rfl | het
        · exact le_refl e
        · exact List.rel_of_sorted_cons hl e het
      · rw [resolveDate, List.find?_cons_of_neg _ (by simpa using hra)] at h
        obtain ⟨hmem, hrd, hmin⟩ := ih hl.of_cons h
        refine ⟨List.mem_cons_of_mem a hmem, hrd, ?_⟩
        intro e he hre
        rcases List.mem_cons.mp he with rfl | het
        · exact absurd hre hra
        · exact hmin e het hre

theorem resolveDate_self {l : List Nat} (hl : List.Sorted (· ≤ ·) l) {t : Nat}
    (ht : t ∈ l) : resolveDate l t = some t := by
  have hsome : (l.find? (fun d => decide (t ≤ d))).isSome := by
    rw [List.find?_isSome]
    exact ⟨t, ht, by simp⟩
  obtain ⟨d, hd⟩ := Option.isSome_iff_exists.mp hsome
  have hspec := resolveDate_spec hl (h := hd)
  have hdt : d ≤ t := hspec.2.2 t ht (le_refl t)
  have := le_antisymm hdt hspec.2.1
  unfold resolveDate
  rw [hd, this]

/-- Claim C7: `resolveTradingDates` maps each raw news date to the earliest
trading date ≥ it (a trading day maps to itself), deduplicates the result,
and on trading dates [Mon..Fri] with raw dates [Sat, Tue] yields {Mon, Tue}
(days numbered so that 6 is the Saturday before Monday 8). -/
theorem resolve_trading_dates_spec (tradingDates newsDates : List Nat)
    (hs : List.Sorted (· ≤ ·) tradingDates) :
    (∀ r d, resolveDate tradingDates r = some d →
        d ∈ tradingDates ∧ r ≤ d ∧ ∀ e ∈ tradingDates, r ≤ e → d ≤ e) ∧
    (∀ t ∈ tradingDates, resolveDate tradingDates t = some t) ∧
    (resolveTradingDates newsDates tradingDates).Nodup ∧
    resolveTradingDates [6, 9] [8, 9, 10, 11, 12] = [8, 9] := by
  refine ⟨fun r d h => resolveDate_spec hs h, fun t ht => resolveDate_self hs ht,
    List.nodup_dedup _, by decide⟩

theorem resolve_trading_dates_spec_witness :
    resolveTradingDates [6, 9] [8, 9, 10, 11, 12] = [8, 9] ∧
    resolveDate [8, 9, 10, 11, 12] 9 = some 9 :=
  ⟨(resolve_trading_dates_spec [8, 9, 10, 11, 12] [6, 9] (by decide)).2.2.2,
   (resolve_trading_dates_spec [8, 9, 10, 11, 12] [6, 9] (by decide)).2.1 9 (by decide)⟩

/-! ### Indicator calculator -/

/-- Arithmetic mean of a list of rationals. -/
def mean (l : List ℚ) : ℚ := l.sum / (l.length : ℚ)

/-- Modelled from the spec: the look-back window ending at index `i` for a
`w`-period indicator, available only once `w` candles are populated. -/
def windowAt (w : Nat) (closes : List ℚ) (i : Nat) : Option (List ℚ) :=
  if w ≤ i + 1 ∧ i < closes.length then some ((closes.drop (i + 1 - w)).take w)
  else none

/-- Modelled from the spec: a windowed indicator value — the aggregate `f` of
the fully populated look-back window, `none` before the window fills. -/
def windowed (w : Nat) (f : List ℚ → ℚ) (closes : List ℚ) (i : Nat) : Option ℚ :=
  (windowAt w closes i).map f

/-- Modelled from the spec: simple moving average with window `k`
(ma_10 / ma_20 / ma_50 instantiate k). -/
def maAt (k : Nat) : List ℚ → Nat → Option ℚ := windowed k mean

/-- Modelled from the spec: the Bollinger middle band, a 20-period SMA. -/
def bbMiddleAt : List ℚ → Nat → Option ℚ := windowed 20 mean

/-- Modelled from the spec: the Bollinger upper band, SMA + 2 standard
deviations; the standard-deviation aggregate (irrational in general) is an
argument, the definedness contract does not depend on it. -/
def bbUpperAt (sdev : List ℚ → ℚ) : List ℚ → Nat → Option ℚ :=
  windowed 20 (fun win => mean win + 2 * sdev win)

/-- Modelled from the spec: the Bollinger lower band, SMA − 2 standard
deviations. -/
def bbLowerAt (sdev : List ℚ → ℚ) : List ℚ → Nat → Option ℚ :=
  windowed 20 (fun win => mean win - 2 * sdev win)

/-- Successive close-to-close changes. -/
def changes (closes : List ℚ) : List ℚ :=
  List.zipWith (fun a b => b - a) closes closes.tail

/-- Wilder smoothing: fold the running average through the remaining values. -/
def wilderSmooth (n : ℚ) (xs : List ℚ) (seed : ℚ) : ℚ :=
  xs.foldl (fun acc x => (acc * (n - 1) + x) / n) seed

/-- Modelled from the spec: 14-period Wilder RSI, defined from the 15th
candle on (14 changes are needed), computed from same-or-earlier closes
only. -/
def rsiAt (closes : List ℚ) (i : Nat) : Option ℚ :=
  if 14 ≤ i ∧ i < closes.length then
    let ds := changes (closes.take (i + 1))
    let gains := ds.map (fun x => max x 0)
    let losses := ds.map (fun x => max (-x) 0)
    let avgGain := wilderSmooth 14 (gains.drop 14) (mean (gains.take 14))
    let avgLoss := wilderSmooth 14 (losses.drop 14) (mean (losses.take 14))
    some (if avgLoss = 0 then 100 else 100 - 100 / (1 + avgGain / avgLoss))
  else none

/-- Exponential moving average value at index `i` (seeded by the SMA of the
first `n` values, as is conventional), meaningful for n − 1 ≤ i. -/
def emaVal (n : Nat) (xs : List ℚ) (i : Nat) : ℚ :=
  ((xs.drop n).take (i + 1 - n)).foldl
    (fun acc x => acc + (x - acc) * (2 / ((n : ℚ) + 1))) (mean (xs.take n))

/-- Modelled from the spec: MACD = EMA12 − EMA26, defined from the 26th
candle on. -/
def macdAt (closes : List ℚ) (i : Nat) : Option ℚ :=
  if 25 ≤ i ∧ i < closes.length then some (emaVal 12 closes i - emaVal 26 closes i)
  else none

/-- The sequence of defined MACD values (starting at index 25). -/
def macdSeq (closes : List ℚ) : List ℚ :=
  (List.range closes.length).filterMap (macdAt closes)

/-- Modelled from the spec: the 9-period signal line over the MACD sequence,
defined from the 34th candle on. -/
def macdSignalAt (closes : List ℚ) (i : Nat) : Option ℚ :=
  if 33 ≤ i ∧ i < closes.length then some (emaVal 9 (macdSeq closes) (i - 25))
  else none

/-- Modelled from the spec: the MACD histogram (MACD − signal), absent
whenever either component is. -/
def macdHistogramAt (closes : List ℚ) (i : Nat) : Option ℚ :=
  match macdAt closes i, macdSignalAt closes i with
  | some m, some s => some (m - s)
  | _, _ => none

/-- A candle as delivered to the chart: OHLCV plus the optional indicator
attachments (`undefined` in the sources becomes `none`). -/
structure CandleData where
  timestamp : Nat
  opn : ℚ
  high : ℚ
  low : ℚ
  close : ℚ
  volume : ℚ
  ma_10 : Option ℚ
  ma_20 : Option ℚ
  ma_50 : Option ℚ
  rsi : Option ℚ
  macd : Option ℚ
  macd_signal : Option ℚ
  macd_histogram : Option ℚ
  bb_upper : Option ℚ
  bb_middle : Option ℚ
  bb_lower : Option ℚ
deriving DecidableEq

/-- Modelled from the spec: the indicator calculator runs once over the whole
raw sequence and attaches all indicator values to each candle. -/
def attachIndicators (sdev : List ℚ → ℚ) (cs : List Candle) : List CandleData :=
  let closes := cs.map Candle.close
  cs.enum.map (fun pr =>
    CandleData.mk pr.2.timestamp pr.2.opn pr.2.high pr.2.low pr.2.close pr.2.volume
      (maAt 10 closes pr.1) (maAt 20 closes pr.1) (maAt 50 closes pr.1)
      (rsiAt closes pr.1) (macdAt closes pr.1) (macdSignalAt closes pr.1)
      (macdHistogramAt closes pr.1) (bbUpperAt sdev closes pr.1)
      (bbMiddleAt closes pr.1) (bbLowerAt sdev closes pr.1))

/-- A point of a rendered line series. -/
structure IndicatorPoint where
  time : Nat
  value : ℚ
deriving DecidableEq

/-- From `CandlestickChart` (`maData`, `bbUpperData`, …): a chart line series
keeps exactly the candles whose indicator value is present — filter on
defined-and-non-null, then map to {time, value}. -/
def indicatorSeries (f : CandleData → Option ℚ) (data : List CandleData) :
    List IndicatorPoint :=
  data.filterMap (fun c => (f c).map (fun v => IndicatorPoint.mk c.timestamp v))

theorem indicatorSeries_length (f : CandleData → Option ℚ) (data : List CandleData) :
    (indicatorSeries f data).length = data.countP (fun c => (f c).isSome) := by
  induction data with
  | nil => rfl
  | cons c rest ih =>
      cases hfc : f c <;>
        simp [indicatorSeries, List.filterMap_cons, hfc, List.countP_cons, ih] <;>
        simp [indicatorSeries] at ih <;> omega

/-- Claim C8: every optional indicator attachment (ma_10/ma_20/ma_50, rsi,
macd, macd_signal, macd_histogram, bb_upper/bb_middle/bb_lower) is `none` at
every index before its look-back window is fully populated, and absence
propagates to the chart: a line series contains a point for a candle exactly
when that candle's indicator value is present (never a defaulted zero). -/
theorem indicator_window_and_series :
    (∀ (k : Nat) (closes : List ℚ) (i : Nat), i + 1 < k → maAt k closes i = none) ∧
    (∀ (closes : List ℚ) (i : Nat), i + 1 < 15 → rsiAt closes i = none) ∧
    (∀ (closes : List ℚ) (i : Nat), i + 1 < 26 → macdAt closes i = none) ∧
    (∀ (closes : List ℚ) (i : Nat), i + 1 < 34 →
        macdSignalAt closes i = none ∧ macdHistogramAt closes i = none) ∧
    (∀ (sdev : List ℚ → ℚ) (closes : List ℚ) (i : Nat), i + 1 < 20 →
        bbMiddleAt closes i = none ∧ bbUpperAt sdev closes i = none ∧
        bbLowerAt sdev closes i = none) ∧
    (∀ (f : CandleData → Option ℚ) (data : List CandleData) (c : CandleData) (v : ℚ),
        c ∈ data → f c = some v →
        IndicatorPoint.mk c.timestamp v ∈ indicatorSeries f data) ∧
    (∀ (f : CandleData → Option ℚ) (data : List CandleData) (pt : IndicatorPoint),
        pt ∈ indicatorSeries f data →
        ∃ c, c ∈ data ∧ f c = some pt.value ∧ c.timestamp = pt.time) ∧
    (∀ (f : CandleData → Option ℚ) (data : List CandleData),
        (indicatorSeries f data).length = data.countP (fun c => (f c).isSome)) := by
  refine ⟨?_, ?_, ?_, ?_, ?_, ?_, ?_, indicatorSeries_length⟩
  · intro k closes i h
    simp only [maAt, windowed, windowAt]
    rw [if_neg (by omega)]
    rfl
  · intro closes i h
    simp only [rsiAt]
    rw [if_neg (by omega)]
  · intro closes i h
    simp only [macdAt]
    rw [if_neg (by omega)]
  · intro closes i h
    have hsig : macdSignalAt closes i = none := by
      simp only [macdSignalAt]
      rw [if_neg (by omega)]
    refine ⟨hsig, ?_⟩
    cases hmac : macdAt closes i <;> simp [macdHistogramAt, hsig, hmac]
  · intro sdev closes i h
    refine ⟨?_, ?_, ?_⟩ <;>
      · simp only [bbMiddleAt, bbUpperAt, bbLowerAt, windowed, windowAt]
        rw [if_neg (by omega)]
        rfl
  · intro f data c v hc hfv
    exact List.mem_filterMap.mpr ⟨c, hc, by rw [hfv]; rfl⟩
  · intro f data pt hpt
    obtain ⟨c, hc, hmap⟩ := List.mem_filterMap.mp hpt
    cases hfc : f c with
    | none => rw [hfc] at hmap; simp at hmap
    | some v =>
        rw [hfc] at hmap
        simp only [Option.map_some', Option.some.injEq] at hmap
        exact ⟨c, hc, by rw [hfc, ← hmap], by rw [← hmap]⟩

/-- A concrete chart candle with only ma_10 attached, used by the witness. -/
def demoCD : CandleData :=
  CandleData.mk 7 10 12 9 11 100 (some 5) none none none none none none none none none

theorem indicator_window_and_series_witness :
    maAt 20 [(1 : ℚ), 2, 3] 0 = none ∧
    rsiAt [(1 : ℚ), 2, 3] 2 = none ∧
    macdSignalAt [(1 : ℚ), 2, 3] 1 = none ∧
    IndicatorPoint.mk 7 5 ∈ indicatorSeries (fun c => c.ma_10) [demoCD] :=
  ⟨indicator_window_and_series.1 20 [1, 2, 3] 0 (by omega),
   indicator_window_and_series.2.1 [1, 2, 3] 2 (by omega),
   (indicator_window_and_series.2.2.2.1 [1, 2, 3] 1 (by omega)).1,
   indicator_window_and_series.2.2.2.2.2.1 (fun c => c.ma_10) [demoCD] demoCD 5
     (List.mem_singleton.mpr rfl) rfl⟩

/-! ### Status query and the price parameter -/

/-- From the API client `getTradingAccountStatus` (lines 84–91): the
`current_price` query parameter is attached iff the supplied price is truthy
(`currentPrice ? { current_price: currentPrice } : {}`), so a price of
exactly 0, like an omitted one, sends no parameter. -/
def statusQueryParams (currentPrice : Option ℚ) : Option ℚ :=
  match currentPrice with
  | some p => if p = 0 then none else some p
  | none => none

/-- Modelled from the spec: the price at which `status` marks a position —
the supplied current_price if present, else the position's last-known
current_price (0 when Flat). -/
def markPrice (a : Account) (currentPrice : Option ℚ) : ℚ :=
  match currentPrice with
  | some p => p
  | none =>
      match a.position with
      | some pos => pos.current_price
      | none => 0

/-- Modelled from the spec: unrealized P&L reported by `status`,
(mark − entry_price) × shares while Holding and 0 when Flat. -/
def unrealizedPl (a : Account) (currentPrice : Option ℚ) : ℚ :=
  match a.position with
  | some pos => (markPrice a currentPrice - pos.entry_price) * (pos.shares : ℚ)
  | none => 0

/-- Claim C9: the status query attaches the current_price parameter iff the
supplied price is truthy — a price of exactly 0 (like an omitted one) is
dropped, and the engine's status then marks a held position at its last-known
price rather than at 0. -/
theorem status_price_param_truthy :
    statusQueryParams (some 0) = none ∧
    statusQueryParams none = none ∧
    (∀ p : ℚ, p ≠ 0 → statusQueryParams (some p) = some p) ∧
    (∀ (a : Account) (pos : Position), a.position = some pos →
        markPrice a (statusQueryParams (some 0)) = pos.current_price ∧
        unrealizedPl a (statusQueryParams (some 0)) =
          (pos.current_price - pos.entry_price) * (pos.shares : ℚ)) := by
  refine ⟨rfl, rfl, ?_, ?_⟩
  · intro p hp
    simp [statusQueryParams, hp]
  · intro a pos hpos
    constructor
    · simp [statusQueryParams, markPrice, hpos]
    · simp [statusQueryParams, unrealizedPl, markPrice, hpos]

/-- A concrete account holding one lot at entry 10, last marked at 12. -/
def demoHolding : Account :=
  Account.mk 1000000 990000 (some (Position.mk 1000 10 0 12)) 0 []

theorem status_price_param_truthy_witness :
    statusQueryParams (some 7) = some 7 ∧
    markPrice demoHolding (statusQueryParams (some 0)) = 12 :=
  ⟨status_price_param_truthy.2.2.1 7 (by norm_num),
   (status_price_param_truthy.2.2.2 demoHolding (Position.mk 1000 10 0 12) rfl).1⟩

/-! ### Chart-side OHLC validation -/

/-- A JavaScript number as the chart validation sees it: a finite value, NaN,
or a signed infinity. -/
inductive JSNum
  | num (q : ℚ)
  | nan
  | inf
  | ninf
deriving DecidableEq

/-- Finiteness test, `typeof x === 'number' && !isNaN(x) && isFinite(x)`. -/
def JSNum.isFiniteNum : JSNum → Bool
  | JSNum.num _ => true
  | _ => false

/-- JavaScript `<` on numbers: false whenever NaN is involved, infinities
ordered below/above every finite value. -/
def JSNum.jlt : JSNum → JSNum → Bool
  | _, JSNum.nan => false
  | JSNum.nan, _ => false
  | JSNum.ninf, JSNum.ninf => false
  | JSNum.ninf, _ => true
  | _, JSNum.ninf => false
  | JSNum.inf, _ => false
  | JSNum.num _, JSNum.inf => true
  | JSNum.num a, JSNum.num b => decide (a < b)

/-- JavaScript `>`. -/
def JSNum.jgt (a b : JSNum) : Bool := JSNum.jlt b a

theorem JSNum.isFiniteNum_iff (x : JSNum) :
    x.isFiniteNum = true ↔ ∃ q, x = JSNum.num q := by
  cases x <;> simp [JSNum.isFiniteNum]

/-- A raw stock-data item as received by `SimpleTradingViewChart`. -/
structure StockData where
  timestamp : String
  opn : JSNum
  high : JSNum
  low : JSNum
  close : JSNum
  volume : JSNum
deriving DecidableEq

/-- From `SimpleTradingViewChart.validStockData` (lines 58–82): the per-item
validation — a truthy timestamp, all five numbers finite, volume not
negative, and the OHLC ordering checks — as one short-circuit conjunction
(the source's early returns). -/
def validCandle (item : StockData) : Bool :=
  (item.timestamp != "") &&
  item.opn.isFiniteNum &&
  item.high.isFiniteNum &&
  item.low.isFiniteNum &&
  item.close.isFiniteNum &&
  (item.volume.isFiniteNum && !(item.volume.jlt (JSNum.num 0))) &&
  !(item.high.jlt item.low || item.high.jlt item.opn || item.high.jlt item.close) &&
  !(item.low.jgt item.opn || item.low.jgt item.close)

/-- From `SimpleTradingViewChart`: invalid items are silently dropped by a
filter; the chart renders only the survivors. -/
def validStockData (stockData : List StockData) : List StockData :=
  stockData.filter validCandle

/-- Claim C10: every candle retained by `validStockData` (and therefore
rendered) has finite open/high/low/close/volume, volume ≥ 0, high ≥ low,
high ≥ open, high ≥ close, low ≤ open and low ≤ close; violating candles are
filtered out rather than failing. -/
theorem valid_stock_data_ohlc_invariant (l : List StockData) (item : StockData)
    (hmem : item ∈ validStockData l) :
    item ∈ l ∧
    ∃ o h lo c v : ℚ,
      item.opn = JSNum.num o ∧ item.high = JSNum.num h ∧ item.low = JSNum.num lo ∧
      item.close = JSNum.num c ∧ item.volume = JSNum.num v ∧
      0 ≤ v ∧ lo ≤ h ∧ o ≤ h ∧ c ≤ h ∧ lo ≤ o ∧ lo ≤ c := by
  obtain ⟨hl, hval⟩ := List.mem_filter.mp hmem
  refine ⟨hl, ?_⟩
  simp only [validCandle, Bool.and_eq_true, Bool.not_eq_true', Bool.or_eq_false_iff,
    and_assoc] at hval
  obtain ⟨hts, ho, hh, hlo, hc, hv, hvneg, hhl, hho, hhc, hlo1, hlo2⟩ := hval
  obtain ⟨o, ho⟩ := (JSNum.isFiniteNum_iff _).mp ho
  obtain ⟨h, hh⟩ := (JSNum.isFiniteNum_iff _).mp hh
  obtain ⟨lo, hlo⟩ := (JSNum.isFiniteNum_iff _).mp hlo
  obtain ⟨c, hc⟩ := (JSNum.isFiniteNum_iff _).mp hc
  obtain ⟨v, hv⟩ := (JSNum.isFiniteNum_iff _).mp hv
  rw [hv] at hvneg
  rw [hh, hlo] at hhl
  rw [hh, ho] at hho
  rw [hh, hc] at hhc
  rw [JSNum.jgt, ho, hlo] at hlo1
  rw [JSNum.jgt, hc, hlo] at hlo2
  refine ⟨o, h, lo, c, v, ho, hh, hlo, hc, hv, ?_, ?_, ?_, ?_, ?_, ?_⟩ <;>
    simp only [JSNum.jlt, decide_eq_false_iff_not, not_lt] at hvneg hhl hho hhc hlo1 hlo2 <;>
    linarith

/-- A well-formed concrete candle. -/
def demoStock : StockData :=
  StockData.mk "2024-01-02" (JSNum.num 10) (JSNum.num 12) (JSNum.num 9)
    (JSNum.num 11) (JSNum.num 100)

/-- A malformed concrete candle (high below low). -/
def badStock : StockData :=
  StockData.mk "2024-01-03" (JSNum.num 10) (JSNum.num 8) (JSNum.num 9)
    (JSNum.num 11) (JSNum.num 100)

theorem valid_stock_data_ohlc_invariant_witness :
    demoStock ∈ validStockData [demoStock, badStock] ∧
    badStock ∉ validStockData [demoStock, badStock] ∧
    demoStock ∈ [demoStock, badStock] :=
  ⟨by decide, by decide,
   (valid_stock_data_ohlc_invariant [demoStock, badStock] demoStock (by decide)).1⟩

end StockTraderTrainer
